import Mathlib

/-!
Verification development for `src/geo/etl/extractProfileLocation.py`.

The script is a batch-enrichment utility: it loads a JSON array of records,
asks an HTTP inference endpoint for a location per record title, attaches the
reply as a `location` field, and writes the array back out as pretty-printed
JSON (`indent=2`, `ensure_ascii=False`).

Shallow embedding notes:
* JSON values are modelled by the mutual inductive `JValue`/`JArr`/`JObj`.
  Numbers are modelled as integers; floating-point JSON numbers are out of
  scope.  Objects are association lists in insertion order, which matches
  Python dicts with unique keys (what `json.load` produces).
* The inference endpoint is an oracle `Net` from the prompt to either a
  `requests.exceptions.RequestException` or a parsed response body whose
  optional `response` field is a string.
* The file system is an oracle `Fs` from a path to: `none` (the file does not
  exist), `some none` (it exists but `json.load` raises `JSONDecodeError`), or
  `some (some v)` (it parses to `v`).
* Side effects (stdout prints and the output-file write) are recorded as an
  ordered `Event` trace; a propagating Python exception is an `Option PyErr`.
* `str.strip()` is modelled by the executable `pyStrip` (ASCII whitespace;
  the exotic Unicode space classes Python also strips are out of scope).
-/

namespace ExtractProfileLocation

/-! ## JSON data model -/

mutual

inductive JValue : Type where
  | null : JValue
  | bool : Bool → JValue
  | num : Int → JValue
  | str : String → JValue
  | arr : JArr → JValue
  | obj : JObj → JValue
deriving DecidableEq

inductive JArr : Type where
  | nil : JArr
  | cons : JValue → JArr → JArr
deriving DecidableEq

inductive JObj : Type where
  | nil : JObj
  | cons : String → JValue → JObj → JObj
deriving DecidableEq

end

-- Dict lookup.  Keys are unique in objects produced by `json.load`, so
-- first-match lookup agrees with Python dict indexing.
def JObj.lookup : JObj → String → Option JValue
  | .nil, _ => none
  | .cons k v rest, key => if k = key then some v else rest.lookup key

-- Dict assignment `d[key] = v`: an existing key keeps its position and gets
-- the new value; a fresh key is appended (insertion order).
def JObj.setKey : JObj → String → JValue → JObj
  | .nil, key, v => .cons key v .nil
  | .cons k w rest, key, v =>
      if k = key then .cons k v rest else .cons k w (rest.setKey key v)

def JArr.length : JArr → Nat
  | .nil => 0
  | .cons _ rest => rest.length + 1

def JArr.get? : JArr → Nat → Option JValue
  | .nil, _ => none
  | .cons v _, 0 => some v
  | .cons _ rest, n + 1 => rest.get? n

def JArr.isNil : JArr → Bool
  | .nil => true
  | .cons _ _ => false

-- Python truthiness of a parsed JSON value (`not data`).
def pyTruthy : JValue → Bool
  | .null => false
  | .bool b => b
  | .num i => i != 0
  | .str s => s ≠ ""
  | .arr a => !a.isNil
  | .obj .nil => false
  | .obj (.cons _ _ _) => true

-- `isinstance(data, list)`.
def isList : JValue → Bool
  | .arr _ => true
  | _ => false

-- Python type name of a parsed JSON value, as it appears in error messages.
def typeName : JValue → String
  | .null => "NoneType"
  | .bool _ => "bool"
  | .num _ => "int"
  | .str _ => "str"
  | .arr _ => "list"
  | .obj _ => "dict"

-- ASCII whitespace stripped by Python `str.strip()` (the Unicode space
-- classes Python also strips are out of scope).
def isPySpace (c : Char) : Bool :=
  c = ' ' || c = '\t' || c = '\n' || c = '\x0b' || c = '\x0c' || c = '\r'

-- `s.strip()`.
def pyStrip (s : String) : String :=
  String.mk (((s.data.dropWhile isPySpace).reverse.dropWhile isPySpace).reverse)

/-! ## Inference client (`query_llama`, `extract_location`) -/

-- LLaMA API configuration (module-level constants of the script).
def LLAMA_API_URL : String := "http://localhost:11434/api/generate"

def MODEL_NAME : String := "llama3.1"

-- Outcome of `requests.post(LLAMA_API_URL, json={...})` followed by
-- `response.raise_for_status()` and `response.json()`:
-- either a `RequestException` (network failure, HTTP error status, or an
-- unparsable body) carrying its message, or a parsed JSON body whose
-- `response` field is absent (`none`) or the string `some s`.
inductive NetResp : Type where
  | reqError : String → NetResp
  | ok : Option String → NetResp

-- The endpoint oracle, keyed by the prompt sent in the request body.
def Net : Type := String → NetResp

-- `query_llama(prompt)`: returns the trimmed `response` field on success and
-- the sentinel on any caught `RequestException`; also returns, in order, the
-- lines it prints.
def query_llama (net : Net) (prompt : String) : String × List String :=
  match net prompt with
  | .reqError msg =>
      ("Unknown Location", ["Error querying LLaMA API: " ++ msg])
  | .ok respField =>
      let raw := pyStrip (respField.getD (""))
      (raw, ["Prompt: " ++ prompt, "Raw LLaMA Response: " ++ raw])

-- The prompt built by `extract_location` for a given title.
def mkPrompt (title : String) : String :=
  "Identify the location associated with the following text.\n" ++
  "Title: \"" ++ title ++ "\"\n" ++
  "Provide the location in ISO 3166-1 alpha-3 format (e.g., 'USA' for the United States) " ++
  "or respond with 'None' if no location is found.\n" ++
  "One word response only.\n"

-- `extract_location(title)`: the extracted location, or "Unknown Location"
-- when the reply is falsy (empty) or the literal "None"; paired with the
-- lines printed while it runs.
def extract_location (net : Net) (title : String) : String × List String :=
  let q := query_llama net (mkPrompt title)
  (if q.1 ≠ "" ∧ q.1 ≠ "None" then q.1 else "Unknown Location", q.2)

/-! ## Enrichment loop and `process_file` -/

-- A Python exception propagating out of the modelled code.
inductive PyErr : Type where
  | attributeError : String → PyErr
deriving DecidableEq

-- `entry.get(title_key, "").strip()`.  Non-dict entries have no `.get`, and
-- non-string title values have no `.strip`; both raise `AttributeError`.
def pyGetStrip (entry : JValue) (key : String) : Except PyErr String :=
  match entry with
  | .obj fields =>
      match fields.lookup key with
      | none => .ok ("")
      | some (.str s) => .ok (pyStrip s)
      | some v =>
          .error (.attributeError
            ("'" ++ typeName v ++ "' object has no attribute 'strip'"))
  | e =>
      .error (.attributeError
        ("'" ++ typeName e ++ "' object has no attribute 'get'"))

-- `entry[key] = .str loc` (only ever reached on dict entries).
def setField (entry : JValue) (key : String) (v : JValue) : JValue :=
  match entry with
  | .obj fields => .obj (fields.setKey key v)
  | e => e

-- One iteration of the `for entry in data` loop: the updated entry and the
-- lines printed for it, or the exception that escapes.
def processEntry (net : Net) (key : String) (entry : JValue) :
    Except PyErr (JValue × List String) :=
  match pyGetStrip entry key with
  | .error e => .error e
  | .ok title =>
      if title = "" then .ok (entry, ["Skipping entry with no title."])
      else
        let r := extract_location net title
        .ok (setField entry ("location") (.str r.1),
          ("Processing title: " ++ title) :: r.2 ++
            ["Extracted location: " ++ r.1])

-- Result of running the whole loop: the enriched entries plus the printed
-- lines, or the printed lines up to the entry whose processing raised.
inductive LoopResult : Type where
  | ok : JArr → List String → LoopResult
  | fail : List String → PyErr → LoopResult

def processEntries (net : Net) (key : String) : JArr → LoopResult
  | .nil => .ok .nil []
  | .cons e rest =>
      match processEntry net key e with
      | .error err => .fail [] err
      | .ok (e2, log) =>
          match processEntries net key rest with
          | .ok rest2 log2 => .ok (.cons e2 rest2) (log ++ log2)
          | .fail log2 err => .fail (log ++ log2) err

-- Observable side effects, in program order.
inductive Event : Type where
  | print : String → Event
  | write : String → JValue → Event
deriving DecidableEq

def Event.writeData : Event → Option (String × JValue)
  | .write p d => some (p, d)
  | .print _ => none

-- Result of one `process_file` call: its event trace and the exception that
-- propagates out of it, if any.
structure ProcResult : Type where
  events : List Event
  exn : Option PyErr
deriving DecidableEq

-- The writes a call performed, in order.
def ProcResult.writes (r : ProcResult) : List (String × JValue) :=
  r.events.filterMap Event.writeData

-- File-system oracle: `none` = the path does not exist; `some none` = it
-- exists but `json.load` raises `JSONDecodeError`; `some (some v)` = its
-- content parses to `v`.
def Fs : Type := String → Option (Option JValue)

def missingMsg (p : String) : String :=
  "Error: File " ++ p ++ " does not exist."

def invalidMsg (p : String) : String :=
  "Error: File " ++ p ++ " contains invalid JSON."

def notListMsg (p : String) : String :=
  "Error: File " ++ p ++ " is empty or not a valid list."

def savedMsg (p : String) : String :=
  "Updated file saved: " ++ p

-- `process_file(input_file_path, output_file_path, title_key)`.
def process_file (net : Net) (fs : Fs)
    (input_file_path output_file_path title_key : String) : ProcResult :=
  match fs input_file_path with
  | none => ⟨[.print (missingMsg input_file_path)], none⟩
  | some none => ⟨[.print (invalidMsg input_file_path)], none⟩
  | some (some data) =>
      if !pyTruthy data || !isList data then
        ⟨[.print (notListMsg input_file_path)], none⟩
      else
        match data with
        | .arr entries =>
            (match processEntries net title_key entries with
             | .fail log err => ⟨log.map .print, some err⟩
             | .ok entries2 log =>
                ⟨log.map .print ++
                  [.write output_file_path (.arr entries2),
                   .print (savedMsg output_file_path)], none⟩)
        -- unreachable: `isList data` forces the `.arr` case
        | _ => ⟨[.print (notListMsg input_file_path)], none⟩

/-! ## Orchestrator (`main`) -/

def pathJoin (a b : String) : String := a ++ "/" ++ b

-- `os.path.dirname(__file__)`: environment dependent; any fixed value works
-- for the claims, which never inspect the concrete paths.
def BASE_DIR : String := "src/geo/etl"

def WORKS_FILE : String := pathJoin BASE_DIR (pathJoin ("json") ("expertWorks.json"))

def GRANTS_FILE : String := pathJoin BASE_DIR (pathJoin ("json") ("expertGrants.json"))

def GEO_WORKS_FILE : String := pathJoin BASE_DIR (pathJoin ("json") ("geoExpertWorks.json"))

def GEO_GRANTS_FILE : String := pathJoin BASE_DIR (pathJoin ("json") ("geoExpertGrants.json"))

-- `main()`: works first, then grants; an uncaught exception from the first
-- call aborts the run before the second starts.
def main (net : Net) (fs : Fs) : ProcResult :=
  let r1 := process_file net fs WORKS_FILE GEO_WORKS_FILE ("name")
  match r1.exn with
  | some e => ⟨Event.print ("Processing works...") :: r1.events, some e⟩
  | none =>
      let r2 := process_file net fs GRANTS_FILE GEO_GRANTS_FILE ("title")
      match r2.exn with
      | some e =>
          ⟨Event.print ("Processing works...") :: r1.events ++
            Event.print ("Processing grants...") :: r2.events, some e⟩
      | none =>
          ⟨Event.print ("Processing works...") :: r1.events ++
            Event.print ("Processing grants...") :: r2.events ++
            [Event.print ("Location extraction completed.")], none⟩

/-! ## Well-formed entries: the inputs on which the loop raises nothing -/

-- An entry the loop body can process without raising: a dict whose title
-- value, when present, is a string.
def entryOk (key : String) : JValue → Bool
  | .obj fields =>
      match fields.lookup key with
      | none => true
      | some (.str _) => true
      | some _ => false
  | _ => false

def entriesOk (key : String) : JArr → Bool
  | .nil => true
  | .cons e rest => entryOk key e && entriesOk key rest

theorem extract_location_ne_empty (net : Net) (t : String) :
    (extract_location net t).1 ≠ "" := by
  simp only [extract_location]
  split
  · next h => exact h.1
  · simp

theorem entryOk_processEntry (net : Net) (key : String) (e : JValue)
    (h : entryOk key e = true) :
    ∃ e2 lg, processEntry net key e = .ok (e2, lg) := by
  cases e
  case obj fields =>
    cases hl : fields.lookup key with
    | none =>
        simp only [processEntry, pyGetStrip, hl]
        exact ⟨_, _, rfl⟩
    | some v =>
        cases v
        case str s =>
          simp only [processEntry, pyGetStrip, hl]
          split <;> exact ⟨_, _, rfl⟩
        all_goals simp [entryOk, hl] at h
  all_goals simp [entryOk] at h

theorem entriesOk_processEntries (net : Net) (key : String) :
    ∀ xs : JArr, entriesOk key xs = true →
      ∃ ys log, processEntries net key xs = .ok ys log
  | .nil, _ => ⟨.nil, [], rfl⟩
  | .cons e rest, h => by
      rw [entriesOk, Bool.and_eq_true] at h
      obtain ⟨e2, lg, he⟩ := entryOk_processEntry net key e h.1
      obtain ⟨ys, log, hr⟩ := entriesOk_processEntries net key rest h.2
      exact ⟨.cons e2 ys, lg ++ log, by simp [processEntries, he, hr]⟩

-- The loop is a per-entry map: on success, each output entry is obtained
-- from the input entry at the same position, independently of the others.
theorem processEntries_spec (net : Net) (key : String) :
    ∀ (xs ys : JArr) (log : List String),
      processEntries net key xs = .ok ys log →
      ys.length = xs.length ∧
      ∀ i e, xs.get? i = some e →
        ∃ e2 lg, processEntry net key e = .ok (e2, lg) ∧ ys.get? i = some e2
  | .nil, ys, log, h => by
      simp only [processEntries] at h
      cases h
      exact ⟨rfl, fun i e hi => by simp [JArr.get?] at hi⟩
  | .cons e rest, ys, log, h => by
      simp only [processEntries] at h
      cases hpe : processEntry net key e with
      | error err => rw [hpe] at h; cases h
      | ok p =>
          obtain ⟨e2, lg⟩ := p
          rw [hpe] at h
          cases hrest : processEntries net key rest with
          | fail log2 err => rw [hrest] at h; cases h
          | ok ys2 log2 =>
              rw [hrest] at h
              cases h
              obtain ⟨hlen, hpt⟩ := processEntries_spec net key rest ys2 log2 hrest
              refine ⟨by simp [JArr.length, hlen], ?_⟩
              intro i e3 hi
              cases i with
              | zero =>
                  rw [JArr.get?] at hi
                  cases hi
                  exact ⟨e2, lg, hpe, rfl⟩
              | succ j =>
                  rw [JArr.get?] at hi
                  obtain ⟨e4, lg2, h4, h5⟩ := hpt j e3 hi
                  exact ⟨e4, lg2, h4, h5⟩

-- An output entry is the input entry, or the input entry with a non-empty
-- string written at the `location` key.
theorem processEntry_shape (net : Net) (key : String) (e e2 : JValue) (lg : List String)
    (h : processEntry net key e = .ok (e2, lg)) :
    e2 = e ∨ ∃ loc, loc ≠ "" ∧ e2 = setField e ("location") (.str loc) := by
  simp only [processEntry] at h
  cases hg : pyGetStrip e key with
  | error err => rw [hg] at h; cases h
  | ok t =>
      rw [hg] at h
      dsimp only at h
      by_cases ht : t = ""
      · rw [if_pos ht] at h
        cases h
        exact Or.inl rfl
      · rw [if_neg ht] at h
        cases h
        exact Or.inr ⟨_, extract_location_ne_empty net t, rfl⟩

theorem writes_of_prints (l : List String) (rest : List Event) :
    (l.map Event.print ++ rest).filterMap Event.writeData =
      rest.filterMap Event.writeData := by
  induction l with
  | nil => rfl
  | cons s t ih => simp [Event.writeData, ih]

-- `process_file` on a non-empty parsed array whose loop completes: one write
-- after the loop's prints, then the save confirmation.
theorem process_file_success (net : Net) (fs : Fs) (inP outP key : String)
    (entries ys : JArr) (log : List String)
    (hin : fs inP = some (some (.arr entries))) (hne : entries.isNil = false)
    (hp : processEntries net key entries = .ok ys log) :
    process_file net fs inP outP key =
      ⟨log.map Event.print ++ [.write outP (.arr ys), .print (savedMsg outP)], none⟩ := by
  simp [process_file, hin, pyTruthy, isList, hne, hp]

-- `process_file` when the loop raises: the prints so far, no write, and the
-- exception propagates.
theorem process_file_raise (net : Net) (fs : Fs) (inP outP key : String)
    (entries : JArr) (log : List String) (err : PyErr)
    (hin : fs inP = some (some (.arr entries))) (hne : entries.isNil = false)
    (hp : processEntries net key entries = .fail log err) :
    process_file net fs inP outP key = ⟨log.map Event.print, some err⟩ := by
  simp [process_file, hin, pyTruthy, isList, hne, hp]

-- The value stored at key `k2` of a record (none on non-dicts).
def fieldOf (e : JValue) (k2 : String) : Option JValue :=
  match e with
  | .obj fields => fields.lookup k2
  | _ => none

theorem JObj.lookup_setKey_self : ∀ (f : JObj) (k : String) (v : JValue),
    (f.setKey k v).lookup k = some v
  | .nil, k, v => by simp [JObj.setKey, JObj.lookup]
  | .cons k1 w rest, k, v => by
      by_cases h : k1 = k
      · simp [JObj.setKey, JObj.lookup, h]
      · simp [JObj.setKey, JObj.lookup, h, lookup_setKey_self rest k v]

theorem JObj.lookup_setKey_other : ∀ (f : JObj) (k k2 : String) (v : JValue),
    k2 ≠ k → (f.setKey k v).lookup k2 = f.lookup k2
  | .nil, k, k2, v, h => by
      have hk : ¬ k = k2 := fun hh => h hh.symm
      simp [JObj.setKey, JObj.lookup, hk]
  | .cons k1 w rest, k, k2, v, h => by
      have hk : ¬ k = k2 := fun hh => h hh.symm
      by_cases h1 : k1 = k
      · subst h1
        simp [JObj.setKey, JObj.lookup, hk]
      · by_cases h2 : k1 = k2
        · simp [JObj.setKey, JObj.lookup, h1, h2, h]
        · simp [JObj.setKey, JObj.lookup, h1, h2, lookup_setKey_other rest k k2 v h]

/-! ## Concrete oracles for witnesses and counterexamples -/

-- An endpoint that always replies with body {"response": " DEU "}.
def netDEU : Net := fun _ => .ok (some (" DEU "))

-- An endpoint that always replies with body {"response": "none"}.
def netLower : Net := fun _ => .ok (some ("none"))

-- An endpoint whose requests always raise a RequestException.
def netDown : Net := fun _ => .reqError ("connection refused")

def inputPath : String := "in.json"

def outputPath : String := "out.json"

def recSolar : JValue :=
  .obj (.cons ("name") (.str ("Solar Power Research in Germany")) .nil)

def entSolar : JArr := .cons recSolar .nil

-- One well-formed record.
def fsGood : Fs := fun _ => some (some (.arr entSolar))

-- The record collection [null]: valid JSON, non-empty array, non-dict entry.
def fsNullEntry : Fs := fun _ => some (some (.arr (.cons .null .nil)))

-- The record collection [42].
def fsBareNum : Fs := fun _ => some (some (.arr (.cons (.num 42) .nil)))

-- A record that already carries a `location` field.
def recLocOld : JValue :=
  .obj (.cons ("name") (.str ("X")) (.cons ("location") (.str ("old")) .nil))

def fsLocOld : Fs := fun _ => some (some (.arr (.cons recLocOld .nil)))

-- A file system with no files at all.
def fsNothing : Fs := fun _ => none

-- A record with a blank title.
def recBlank : JValue := .obj (.cons ("name") (.str ("  ")) .nil)

def fsBlank : Fs := fun _ => some (some (.arr (.cons recBlank .nil)))

/-! ## C1 -/

/-- C1 counterexample: the input file exists, parses as valid JSON, and is a
non-empty array, yet `process_file` produces no output array at all: the
non-dict entry `null` makes `entry.get` raise an AttributeError that escapes,
so nothing of the input's length is written. -/
theorem c1_counterexample :
    fsNullEntry inputPath = some (some (.arr (.cons .null .nil))) ∧
    (process_file netDEU fsNullEntry inputPath outputPath ("name")).writes = [] ∧
    (process_file netDEU fsNullEntry inputPath outputPath ("name")).exn =
      some (.attributeError ("'NoneType' object has no attribute 'get'")) :=
  ⟨rfl, rfl, rfl⟩

/-- C1 (amended): for every input file that exists, parses as valid JSON, and
is a non-empty array, if `process_file` completes without raising an
exception, it writes exactly one output array, of the same length as the
input and with its elements in the same order: each input record appears at
the same position in the output, possibly with a `location` field added or
updated. -/
theorem c1_output_same_length_order (net : Net) (fs : Fs)
    (inP outP key : String) (entries : JArr)
    (hin : fs inP = some (some (.arr entries))) (hne : entries.isNil = false)
    (hex : (process_file net fs inP outP key).exn = none) :
    ∃ ys : JArr,
      (process_file net fs inP outP key).writes = [(outP, .arr ys)] ∧
      ys.length = entries.length ∧
      ∀ i e, entries.get? i = some e → ∃ e2, ys.get? i = some e2 ∧
        (e2 = e ∨ ∃ loc, e2 = setField e ("location") (.str loc)) := by
  cases hp : processEntries net key entries with
  | fail log err =>
      rw [process_file_raise net fs inP outP key entries log err hin hne hp] at hex
      simp at hex
  | ok ys log =>
      rw [process_file_success net fs inP outP key entries ys log hin hne hp]
      obtain ⟨hlen, hpt⟩ := processEntries_spec net key entries ys log hp
      refine ⟨ys, ?_, hlen, ?_⟩
      · simp [ProcResult.writes, writes_of_prints, Event.writeData]
      · intro i e hi
        obtain ⟨e2, lg, hpe, hy⟩ := hpt i e hi
        refine ⟨e2, hy, ?_⟩
        rcases processEntry_shape net key e e2 lg hpe with h | ⟨loc, _, hl⟩
        · exact Or.inl h
        · exact Or.inr ⟨loc, hl⟩

/-- C1 witness: the amended claim at a concrete one-record collection. -/
theorem c1_witness :
    fsGood inputPath = some (some (.arr entSolar)) ∧ entSolar.isNil = false ∧
    (process_file netDEU fsGood inputPath outputPath ("name")).exn = none ∧
    ∃ ys : JArr,
      (process_file netDEU fsGood inputPath outputPath ("name")).writes =
        [((outputPath), .arr ys)] ∧
      ys.length = entSolar.length ∧
      ∀ i e, entSolar.get? i = some e → ∃ e2, ys.get? i = some e2 ∧
        (e2 = e ∨ ∃ loc, e2 = setField e ("location") (.str loc)) :=
  ⟨rfl, rfl, by decide,
    c1_output_same_length_order netDEU fsGood inputPath outputPath ("name")
      entSolar rfl rfl (by decide)⟩

/-! ## C2 -/

/-- C2 counterexample: on the existing, valid, non-empty-array input `[42]`
the loop calls `.get` on an int and the resulting AttributeError propagates
out of `process_file`, so the call does not terminate normally. -/
theorem c2_counterexample :
    fsBareNum inputPath = some (some (.arr (.cons (.num 42) .nil))) ∧
    (process_file netDEU fsBareNum inputPath outputPath ("name")).exn =
      some (.attributeError ("'int' object has no attribute 'get'")) :=
  ⟨rfl, rfl⟩

/-- C2 (amended): the inference call (query_llama / extract_location) is total
and converts its anticipated failure to the sentinel; and no exception
propagates out of `process_file` provided every element of a parsed input
array is an object whose title value, when present, is a string — each
anticipated failure is converted to an early return or to the sentinel. -/
theorem c2_no_exception_on_wellformed (net : Net) (fs : Fs) (inP outP key : String)
    (h : ∀ entries, fs inP = some (some (.arr entries)) → entriesOk key entries = true) :
    (process_file net fs inP outP key).exn = none := by
  cases hin : fs inP with
  | none => simp [process_file, hin]
  | some o =>
      cases o with
      | none => simp [process_file, hin]
      | some data =>
          cases data
          case arr entries =>
            cases entries with
            | nil => simp [process_file, hin, pyTruthy, JArr.isNil]
            | cons e rest =>
                obtain ⟨ys, log, hp⟩ :=
                  entriesOk_processEntries net key (.cons e rest) (h _ hin)
                simp [process_file, hin, pyTruthy, JArr.isNil, isList, hp]
          all_goals simp [process_file, hin, isList]

/-- C2 witness: the amended claim at a concrete well-formed collection. -/
theorem c2_witness :
    (∀ entries, fsGood inputPath = some (some (.arr entries)) →
      entriesOk ("name") entries = true) ∧
    (process_file netDEU fsGood inputPath outputPath ("name")).exn = none := by
  have h : ∀ entries, fsGood inputPath = some (some (.arr entries)) →
      entriesOk ("name") entries = true := by
    intro entries hh
    simp only [fsGood, Option.some.injEq, JValue.arr.injEq] at hh
    subst hh
    decide
  exact ⟨h, c2_no_exception_on_wellformed netDEU fsGood inputPath outputPath ("name") h⟩

/-! ## C3 -/

-- Evaluation of `extract_location` on a successful HTTP exchange, phrased by
-- cases on the trimmed reply.
theorem extract_location_eval (net : Net) (t : String) (r : Option String)
    (hr : net (mkPrompt t) = .ok r) :
    (extract_location net t).1 =
      if pyStrip (r.getD ("")) = "" ∨ pyStrip (r.getD ("")) = "None"
      then "Unknown Location" else pyStrip (r.getD ("")) := by
  simp only [extract_location, query_llama, hr]
  by_cases h1 : pyStrip (r.getD ("")) = ""
  · simp [h1]
  · by_cases h2 : pyStrip (r.getD ("")) = "None"
    · simp [h1, h2]
    · simp [h1, h2]

/-- C3: for every record processed (a dict whose title value trims to a
non-empty string), if the inference reply after trimming is the empty string
or equals "None", the record's `location` is set to "Unknown Location";
otherwise `location` is set to the trimmed reply verbatim, with no format
validation. -/
theorem c3_reply_dispatch (net : Net) (key : String) (fields : JObj)
    (s : String) (r : Option String)
    (ht : fields.lookup key = some (.str s)) (hne : pyStrip s ≠ "")
    (hr : net (mkPrompt (pyStrip s)) = .ok r) :
    ∃ lg, processEntry net key (.obj fields) =
      .ok (setField (.obj fields) ("location")
        (.str (if pyStrip (r.getD ("")) = "" ∨ pyStrip (r.getD ("")) = "None"
               then "Unknown Location" else pyStrip (r.getD ("")))), lg) := by
  have hv := extract_location_eval net (pyStrip s) r hr
  simp only [processEntry, pyGetStrip, ht, if_neg hne, hv]
  exact ⟨_, rfl⟩

/-- C3 witness: a concrete record and a concrete reply " DEU " (trims to
"DEU", neither empty nor "None", passed through verbatim). -/
theorem c3_witness :
    (JObj.cons ("name") (.str ("Solar Power Research in Germany")) .nil).lookup ("name") =
      some (.str ("Solar Power Research in Germany")) ∧
    pyStrip ("Solar Power Research in Germany") ≠ "" ∧
    netDEU (mkPrompt (pyStrip ("Solar Power Research in Germany"))) = .ok (some (" DEU ")) ∧
    ∃ lg, processEntry netDEU ("name")
        (.obj (.cons ("name") (.str ("Solar Power Research in Germany")) .nil)) =
      .ok (setField (.obj (.cons ("name") (.str ("Solar Power Research in Germany")) .nil))
        ("location")
        (.str (if pyStrip ((some (" DEU ")).getD ("")) = "" ∨
                  pyStrip ((some (" DEU ")).getD ("")) = "None"
               then "Unknown Location" else pyStrip ((some (" DEU ")).getD ("")))), lg) :=
  ⟨rfl, by decide, rfl,
    c3_reply_dispatch netDEU ("name") _ _ (some (" DEU ")) rfl (by decide) rfl⟩

/-! ## C5 -/

/-- C5: a record whose title field is missing, or whose title trims to the
empty string, is skipped: the output record is identical to the input record
and no `location` key is added. -/
theorem c5_blank_title_skipped (net : Net) (key : String) (fields : JObj)
    (h : fields.lookup key = none ∨
      ∃ s, fields.lookup key = some (.str s) ∧ pyStrip s = "") :
    processEntry net key (.obj fields) =
      .ok (.obj fields, ["Skipping entry with no title."]) := by
  rcases h with h | ⟨s, h, hs⟩
  · simp [processEntry, pyGetStrip, h]
  · simp [processEntry, pyGetStrip, h, hs]

/-- C5 witness: the record with blank title `{"name": "  "}` is returned
unchanged. -/
theorem c5_witness :
    ((JObj.cons ("name") (.str ("  ")) .nil).lookup ("name") = none ∨
      ∃ s, (JObj.cons ("name") (.str ("  ")) .nil).lookup ("name") =
        some (.str s) ∧ pyStrip s = "") ∧
    processEntry netDEU ("name") (.obj (.cons ("name") (.str ("  ")) .nil)) =
      .ok (.obj (.cons ("name") (.str ("  ")) .nil),
        ["Skipping entry with no title."]) :=
  ⟨Or.inr ⟨"  ", rfl, by decide⟩,
    c5_blank_title_skipped netDEU ("name") _ (Or.inr ⟨"  ", rfl, by decide⟩)⟩

/-! ## C4 -/

-- When the request for a prompt raises, `extract_location` yields the
-- sentinel.
theorem extract_location_of_reqError (net : Net) (t : String) (msg : String)
    (hfail : net (mkPrompt t) = .reqError msg) :
    (extract_location net t).1 = "Unknown Location" := by
  simp only [extract_location, query_llama, hfail]
  split <;> rfl

/-- C4: if the HTTP request for a given record fails, that record's
`location` is set to "Unknown Location", the loop still completes, and every
other record's output is computed from its own entry alone, so subsequent
records are unaffected. -/
theorem c4_http_failure_sentinel (net : Net) (key : String) (xs : JArr)
    (i : Nat) (fields : JObj) (s msg : String)
    (hok : entriesOk key xs = true)
    (hi : xs.get? i = some (.obj fields))
    (ht : fields.lookup key = some (.str s)) (hne : pyStrip s ≠ "")
    (hfail : net (mkPrompt (pyStrip s)) = .reqError msg) :
    ∃ ys log, processEntries net key xs = .ok ys log ∧
      ys.length = xs.length ∧
      ys.get? i = some (setField (.obj fields) ("location")
        (.str ("Unknown Location"))) ∧
      ∀ j e, xs.get? j = some e →
        ∃ e2 lg, processEntry net key e = .ok (e2, lg) ∧ ys.get? j = some e2 := by
  obtain ⟨ys, log, hp⟩ := entriesOk_processEntries net key xs hok
  obtain ⟨hlen, hpt⟩ := processEntries_spec net key xs ys log hp
  refine ⟨ys, log, hp, hlen, ?_, hpt⟩
  obtain ⟨e2, lg, hpe, hy⟩ := hpt i _ hi
  have hval := extract_location_of_reqError net (pyStrip s) msg hfail
  have hform : processEntry net key (.obj fields) =
      .ok (setField (.obj fields) ("location")
          (.str ((extract_location net (pyStrip s)).1)),
        ("Processing title: " ++ pyStrip s) :: (extract_location net (pyStrip s)).2 ++
          ["Extracted location: " ++ (extract_location net (pyStrip s)).1]) := by
    simp only [processEntry, pyGetStrip, ht, if_neg hne]
  rw [hform] at hpe
  cases hpe
  rw [hval] at hy
  exact hy

-- A down endpoint plus a two-record collection for the C4 witness: the first
-- record degrades to the sentinel and the second is still processed.
def entPair : JArr :=
  .cons (.obj (.cons ("name") (.str ("Alpha")) .nil))
    (.cons (.obj (.cons ("name") (.str ("Beta")) .nil)) .nil)

/-- C4 witness: the claim at a concrete unreachable endpoint and a two-record
collection. -/
theorem c4_witness :
    entriesOk ("name") entPair = true ∧
    entPair.get? 0 = some (.obj (.cons ("name") (.str ("Alpha")) .nil)) ∧
    (JObj.cons ("name") (.str ("Alpha")) .nil).lookup ("name") =
      some (.str ("Alpha")) ∧
    pyStrip ("Alpha") ≠ "" ∧
    netDown (mkPrompt (pyStrip ("Alpha"))) = .reqError ("connection refused") ∧
    ∃ ys log, processEntries netDown ("name") entPair = .ok ys log ∧
      ys.length = entPair.length ∧
      ys.get? 0 = some (setField (.obj (.cons ("name") (.str ("Alpha")) .nil))
        ("location") (.str ("Unknown Location"))) ∧
      ∀ j e, entPair.get? j = some e →
        ∃ e2 lg, processEntry netDown ("name") e = .ok (e2, lg) ∧
          ys.get? j = some e2 :=
  ⟨by decide, rfl, rfl, by decide, rfl,
    c4_http_failure_sentinel netDown ("name") entPair 0 _ ("Alpha")
      ("connection refused") (by decide) rfl rfl (by decide) rfl⟩

/-! ## C6 -/

/-- C6: `process_file` aborts with a diagnostic and no write exactly when the
input file does not exist, or its content is not valid JSON, or the parsed
value is not an array or is the empty array; and when the works file fails
this way (no exception), `main` still runs the grants file's processing
unaffected. -/
theorem c6_failure_characterization (net : Net) (fs : Fs) (inP outP key : String) :
    ((process_file net fs inP outP key).writes = [] ∧
        (process_file net fs inP outP key).exn = none ↔
      fs inP = none ∨ fs inP = some none ∨
        ∃ d, fs inP = some (some d) ∧ (isList d = false ∨ d = .arr .nil)) ∧
    ((process_file net fs WORKS_FILE GEO_WORKS_FILE ("name")).exn = none →
      ∃ tail, (main net fs).events =
        Event.print ("Processing works...") ::
          ((process_file net fs WORKS_FILE GEO_WORKS_FILE ("name")).events ++
            Event.print ("Processing grants...") ::
              ((process_file net fs GRANTS_FILE GEO_GRANTS_FILE ("title")).events
                ++ tail))) := by
  constructor
  · constructor
    · rintro ⟨hw, hx⟩
      cases hin : fs inP with
      | none => exact Or.inl rfl
      | some o =>
          cases o with
          | none => exact Or.inr (Or.inl rfl)
          | some d =>
              refine Or.inr (Or.inr ⟨d, rfl, ?_⟩)
              cases d
              case arr entries =>
                cases entries with
                | nil => exact Or.inr rfl
                | cons e rest =>
                    exfalso
                    cases hp : processEntries net key (.cons e rest) with
                    | fail log err =>
                        rw [process_file_raise net fs inP outP key _ log err hin rfl hp]
                          at hx
                        simp at hx
                    | ok ys log =>
                        rw [process_file_success net fs inP outP key _ ys log hin rfl hp]
                          at hw
                        simp [ProcResult.writes, writes_of_prints, Event.writeData] at hw
              all_goals exact Or.inl rfl
    · rintro (hin | hin | ⟨d, hin, hd⟩)
      · simp [process_file, hin, ProcResult.writes, Event.writeData]
      · simp [process_file, hin, ProcResult.writes, Event.writeData]
      · rcases hd with hd | hd
        · cases d <;> simp [isList] at hd ⊢ <;>
            simp [process_file, hin, isList, ProcResult.writes, Event.writeData]
        · subst hd
          simp [process_file, hin, pyTruthy, JArr.isNil, ProcResult.writes,
            Event.writeData]
  · intro hx
    cases hg : (process_file net fs GRANTS_FILE GEO_GRANTS_FILE ("title")).exn with
    | some e => exact ⟨[], by simp [main, hx, hg]⟩
    | none =>
        exact ⟨[Event.print ("Location extraction completed.")],
          by simp [main, hx, hg]⟩

/-- C6 witness: the characterization at a file system with no files (both
directions of the iff are exercised by the missing works file). -/
theorem c6_witness :
    ((process_file netDEU fsNothing inputPath outputPath ("name")).writes = [] ∧
        (process_file netDEU fsNothing inputPath outputPath ("name")).exn = none ↔
      fsNothing inputPath = none ∨ fsNothing inputPath = some none ∨
        ∃ d, fsNothing inputPath = some (some d) ∧
          (isList d = false ∨ d = .arr .nil)) ∧
    ((process_file netDEU fsNothing WORKS_FILE GEO_WORKS_FILE ("name")).exn = none →
      ∃ tail, (main netDEU fsNothing).events =
        Event.print ("Processing works...") ::
          ((process_file netDEU fsNothing WORKS_FILE GEO_WORKS_FILE ("name")).events ++
            Event.print ("Processing grants...") ::
              ((process_file netDEU fsNothing GRANTS_FILE GEO_GRANTS_FILE ("title")).events
                ++ tail))) :=
  c6_failure_characterization netDEU fsNothing inputPath outputPath ("name")

/-! ## C7 -/

/-- C7: if the input file is missing on disk, `process_file` performs no
write at all (the destination path is untouched), emits exactly the
missing-file diagnostic, and the orchestrator still proceeds to the grants
collection. -/
theorem c7_missing_input_frame (net : Net) (fs : Fs) (inP outP key : String)
    (h : fs inP = none) (hw : fs WORKS_FILE = none) :
    process_file net fs inP outP key = ⟨[.print (missingMsg inP)], none⟩ ∧
    (process_file net fs inP outP key).writes = [] ∧
    ∃ tail, (main net fs).events =
      Event.print ("Processing works...") :: Event.print (missingMsg WORKS_FILE) ::
        Event.print ("Processing grants...") ::
        ((process_file net fs GRANTS_FILE GEO_GRANTS_FILE ("title")).events ++ tail) := by
  have h1 : process_file net fs inP outP key = ⟨[.print (missingMsg inP)], none⟩ := by
    simp [process_file, h]
  have h2 : process_file net fs WORKS_FILE GEO_WORKS_FILE ("name") =
      ⟨[.print (missingMsg WORKS_FILE)], none⟩ := by
    simp [process_file, hw]
  refine ⟨h1, by simp [h1, ProcResult.writes, Event.writeData], ?_⟩
  cases hg : (process_file net fs GRANTS_FILE GEO_GRANTS_FILE ("title")).exn with
  | some e => exact ⟨[], by simp [main, h2, hg]⟩
  | none =>
      exact ⟨[Event.print ("Location extraction completed.")],
        by simp [main, h2, hg]⟩

/-- C7 witness: the frame property on the empty file system. -/
theorem c7_witness :
    fsNothing inputPath = none ∧
    process_file netDEU fsNothing inputPath outputPath ("name") =
      ⟨[.print (missingMsg inputPath)], none⟩ ∧
    (process_file netDEU fsNothing inputPath outputPath ("name")).writes = [] ∧
    ∃ tail, (main netDEU fsNothing).events =
      Event.print ("Processing works...") :: Event.print (missingMsg WORKS_FILE) ::
        Event.print ("Processing grants...") ::
        ((process_file netDEU fsNothing GRANTS_FILE GEO_GRANTS_FILE ("title")).events
          ++ tail) :=
  ⟨rfl, c7_missing_input_frame netDEU fsNothing inputPath outputPath ("name") rfl rfl⟩

/-! ## C8 -/

/-- C8 counterexample: a record that already carries `location: "old"` does
not retain that original value in the written output — the field is
overwritten with the inference reply "DEU" — refuting the claim that every
written record retains all original fields with their original values with
only a `location` key possibly added. -/
theorem c8_counterexample :
    fsLocOld inputPath = some (some (.arr (.cons (.obj (.cons ("name") (.str ("X"))
      (.cons ("location") (.str ("old")) .nil))) .nil))) ∧
    (process_file netDEU fsLocOld inputPath outputPath ("name")).writes =
      [((outputPath), .arr (.cons (.obj (.cons ("name") (.str ("X"))
        (.cons ("location") (.str ("DEU")) .nil))) .nil))] ∧
    JValue.str ("old") ≠ JValue.str ("DEU") :=
  ⟨rfl, by decide, by decide⟩

/-- C8 (amended): on a successful run, every written record retains all of
its original fields and values except possibly `location`, which may be
added or overwritten with a non-empty string; and the collection is written
exactly once, after the whole loop completes (the single write is followed
only by the save-confirmation print), never per record. -/
theorem c8_written_records_invariant (net : Net) (fs : Fs)
    (inP outP key : String) (entries : JArr)
    (hin : fs inP = some (some (.arr entries))) (hne : entries.isNil = false)
    (hex : (process_file net fs inP outP key).exn = none) :
    ∃ (ys : JArr) (log : List String),
      (process_file net fs inP outP key).events =
        log.map Event.print ++ [.write outP (.arr ys), .print (savedMsg outP)] ∧
      (process_file net fs inP outP key).writes = [(outP, .arr ys)] ∧
      ∀ i e, entries.get? i = some e → ∃ e2, ys.get? i = some e2 ∧
        (∀ k2, k2 ≠ "location" → fieldOf e2 k2 = fieldOf e k2) ∧
        (fieldOf e2 ("location") = fieldOf e ("location") ∨
          ∃ loc, loc ≠ "" ∧ fieldOf e2 ("location") = some (.str loc)) := by
  cases hp : processEntries net key entries with
  | fail log err =>
      rw [process_file_raise net fs inP outP key entries log err hin hne hp] at hex
      simp at hex
  | ok ys log =>
      rw [process_file_success net fs inP outP key entries ys log hin hne hp]
      obtain ⟨hlen, hpt⟩ := processEntries_spec net key entries ys log hp
      refine ⟨ys, log, rfl, ?_, ?_⟩
      · simp [ProcResult.writes, writes_of_prints, Event.writeData]
      · intro i e hi
        obtain ⟨e2, lg, hpe, hy⟩ := hpt i e hi
        refine ⟨e2, hy, ?_⟩
        rcases processEntry_shape net key e e2 lg hpe with rfl | ⟨loc, hloc, rfl⟩
        · exact ⟨fun k2 _ => rfl, Or.inl rfl⟩
        · cases e
          case obj fields =>
            refine ⟨?_, Or.inr ⟨loc, hloc, ?_⟩⟩
            · intro k2 hk2
              simp [setField, fieldOf, JObj.lookup_setKey_other fields _ k2 _ hk2]
            · simp [setField, fieldOf, JObj.lookup_setKey_self]
          all_goals exact ⟨fun k2 _ => rfl, Or.inl rfl⟩

/-- C8 witness: the amended invariant at a concrete one-record collection. -/
theorem c8_witness :
    fsGood inputPath = some (some (.arr entSolar)) ∧ entSolar.isNil = false ∧
    (process_file netDEU fsGood inputPath outputPath ("name")).exn = none ∧
    ∃ (ys : JArr) (log : List String),
      (process_file netDEU fsGood inputPath outputPath ("name")).events =
        log.map Event.print ++
          [.write (outputPath) (.arr ys), .print (savedMsg (outputPath))] ∧
      (process_file netDEU fsGood inputPath outputPath ("name")).writes =
        [((outputPath), .arr ys)] ∧
      ∀ i e, entSolar.get? i = some e → ∃ e2, ys.get? i = some e2 ∧
        (∀ k2, k2 ≠ "location" → fieldOf e2 k2 = fieldOf e k2) ∧
        (fieldOf e2 ("location") = fieldOf e ("location") ∨
          ∃ loc, loc ≠ "" ∧ fieldOf e2 ("location") = some (.str loc)) :=
  ⟨rfl, rfl, by decide,
    c8_written_records_invariant netDEU fsGood inputPath outputPath ("name")
      entSolar rfl rfl (by decide)⟩

/-! ## C10 -/

/-- C10: the substitution of "None" by the sentinel is case-sensitive and
exact — every trimmed non-empty reply other than the literal "None" (for
example "none", "NONE", or "None.") is returned verbatim as the location. -/
theorem c10_none_case_sensitive (net : Net) (title : String) (s : String)
    (hr : net (mkPrompt title) = .ok (some s))
    (h1 : pyStrip s ≠ "") (h2 : pyStrip s ≠ "None") :
    (extract_location net title).1 = pyStrip s := by
  simp [extract_location, query_llama, hr, h1, h2]

/-- C10 witness: the lower-case reply "none" is passed through verbatim
rather than replaced by the sentinel. -/
theorem c10_witness :
    netLower (mkPrompt ("Alpha")) = .ok (some ("none")) ∧
    pyStrip ("none") ≠ "" ∧ pyStrip ("none") ≠ "None" ∧
    (extract_location netLower ("Alpha")).1 = pyStrip ("none") :=
  ⟨rfl, by decide, by decide,
    c10_none_case_sensitive netLower ("Alpha") ("none") rfl (by decide) (by decide)⟩

/-! ## Record store writer: `json.dump(data, file, indent=2, ensure_ascii=False)`

The writer is modelled down to the characters it emits: two-space indentation,
`",\n"` item separators, `": "` key separators, `[]`/`\x7b\x7d` for empty
containers, non-ASCII characters literal, and the escape table of
`json.encoder` (backslash, quote, the five short escapes, `\u00xx` lowercase
for the remaining control characters).  JSON numbers are restricted to
integers: floating-point values are out of scope. -/

def hexDigitChar (d : Nat) : Char :=
  Char.ofNat (if d < 10 then 48 + d else 87 + d)

-- One string character, escaped as `ensure_ascii=False` does.
def escChar (c : Char) : List Char :=
  if c = '\\' then ['\\', '\\']
  else if c = '"' then ['\\', '"']
  else if c = '\x08' then ['\\', 'b']
  else if c = '\x0c' then ['\\', 'f']
  else if c = '\n' then ['\\', 'n']
  else if c = '\r' then ['\\', 'r']
  else if c = '\t' then ['\\', 't']
  else if c.toNat < 32 then
    let hi := hexDigitChar (c.toNat / 16)
    let lo := hexDigitChar (c.toNat % 16)
    '\\' :: 'u' :: '0' :: '0' :: hi :: [lo]
  else [c]

def escString : List Char → List Char
  | [] => []
  | c :: rest => escChar c ++ escString rest

def dumpStr (s : String) : List Char := '"' :: (escString s.data ++ ['"'])

-- Decimal digit characters of `n`, most significant first (`str(n)`).
def natChars (n : Nat) : List Char :=
  if n < 10 then [Char.ofNat (48 + n)]
  else natChars (n / 10) ++ [Char.ofNat (48 + n % 10)]
decreasing_by omega

-- `str(i)` for an int.
def intChars (i : Int) : List Char :=
  if i < 0 then '-' :: natChars i.natAbs else natChars i.toNat

def indentChars (k : Nat) : List Char := List.replicate (2 * k) ' '

-- The keyword renderings.
def nullChars : List Char := ['n', 'u', 'l', 'l']

def trueChars : List Char := ['t', 'r', 'u', 'e']

def falseChars : List Char := ['f', 'a', 'l', 's', 'e']

mutual

def dumpVal (k : Nat) : JValue → List Char
  | .null => nullChars
  | .bool true => trueChars
  | .bool false => falseChars
  | .num i => intChars i
  | .str s => dumpStr s
  | .arr .nil => ['[', ']']
  | .arr (.cons v vs) =>
      '[' :: '\n' :: (indentChars (k + 1) ++ (dumpVal (k + 1) v ++
        (dumpArrMore (k + 1) vs ++ ('\n' :: (indentChars k ++ [']'])))))
  | .obj .nil => ['{', '}']
  | .obj (.cons key v fs) =>
      '{' :: '\n' :: (indentChars (k + 1) ++ (dumpStr key ++ (':' :: ' ' ::
        (dumpVal (k + 1) v ++
          (dumpObjMore (k + 1) fs ++ ('\n' :: (indentChars k ++ ['}'])))))))

def dumpArrMore (k : Nat) : JArr → List Char
  | .nil => []
  | .cons v vs =>
      ',' :: '\n' :: (indentChars k ++ (dumpVal k v ++ dumpArrMore k vs))

def dumpObjMore (k : Nat) : JObj → List Char
  | .nil => []
  | .cons key v fs =>
      ',' :: '\n' :: (indentChars k ++ (dumpStr key ++ (':' :: ' ' ::
        (dumpVal k v ++ dumpObjMore k fs))))

end

-- The characters `json.dump(v, file, indent=2, ensure_ascii=False)` writes.
def json_dumps (v : JValue) : List Char := dumpVal 0 v

/-! ## Record store reader: `json.load` plus the non-empty-list check

A recursive-descent parser on the character list, total via a fuel argument.
Two deliberate deviations from `json.load`, both outside the claims' scope:
numbers cover only the integer grammar (no fraction or exponent: floats are
out of scope; leading zeros are accepted rather than rejected), and
surrogate-pair `\uXXXX` escapes are rejected (the writer never emits them and
their code points are not Lean characters). -/

def isWsChar (c : Char) : Bool :=
  c = ' ' || c = '\t' || c = '\n' || c = '\r'

def skipWs : List Char → List Char
  | [] => []
  | c :: rest => if isWsChar c then skipWs rest else c :: rest

def isDigitChar (c : Char) : Bool := 48 ≤ c.toNat && c.toNat ≤ 57

def hexVal (c : Char) : Option Nat :=
  if 48 ≤ c.toNat && c.toNat ≤ 57 then some (c.toNat - 48)
  else if 97 ≤ c.toNat && c.toNat ≤ 102 then some (c.toNat - 87)
  else if 65 ≤ c.toNat && c.toNat ≤ 70 then some (c.toNat - 55)
  else none

def unescChar (c : Char) : Option Char :=
  if c = '"' then some '"'
  else if c = '\\' then some '\\'
  else if c = '/' then some '/'
  else if c = 'b' then some '\x08'
  else if c = 'f' then some '\x0c'
  else if c = 'n' then some '\n'
  else if c = 'r' then some '\r'
  else if c = 't' then some '\t'
  else none

-- The body of a string after its opening quote, in strict mode (raw control
-- characters rejected).
def parseStrBody : List Char → Option (List Char × List Char)
  | [] => none
  | '"' :: rest => some ([], rest)
  | '\\' :: 'u' :: h1 :: h2 :: h3 :: h4 :: rest =>
      (match hexVal h1, hexVal h2, hexVal h3, hexVal h4 with
       | some a, some b, some c, some d =>
          let n := ((a * 16 + b) * 16 + c) * 16 + d
          if n < 55296 then
            match parseStrBody rest with
            | some (l, r) => some (Char.ofNat n :: l, r)
            | none => none
          else none
       | _, _, _, _ => none)
  | '\\' :: c :: rest =>
      (match unescChar c with
       | some u =>
          match parseStrBody rest with
          | some (l, r) => some (u :: l, r)
          | none => none
       | none => none)
  | c :: rest =>
      if c.toNat < 32 then none
      else
        match parseStrBody rest with
        | some (l, r) => some (c :: l, r)
        | none => none

def parseNatAcc (acc : Nat) : List Char → Nat × List Char
  | [] => (acc, [])
  | c :: rest =>
      if isDigitChar c then parseNatAcc (acc * 10 + (c.toNat - 48)) rest
      else (acc, c :: rest)

def parseNat : List Char → Option (Nat × List Char)
  | c :: rest =>
      if isDigitChar c then some (parseNatAcc (c.toNat - 48) rest) else none
  | [] => none

mutual

def parseValue : Nat → List Char → Option (JValue × List Char)
  | 0, _ => none
  | fuel + 1, cs =>
      match skipWs cs with
      | 'n' :: ('u' :: ('l' :: ('l' :: rest))) => some (.null, rest)
      | 't' :: ('r' :: ('u' :: ('e' :: rest))) => some (.bool true, rest)
      | 'f' :: ('a' :: ('l' :: ('s' :: ('e' :: rest)))) => some (.bool false, rest)
      | '"' :: rest =>
          (match parseStrBody rest with
           | some (l, r) => some (.str (String.mk l), r)
           | none => none)
      | '[' :: rest =>
          (match skipWs rest with
           | ']' :: r => some (.arr .nil, r)
           | cs2 =>
              match parseValue fuel cs2 with
              | some (v, r) =>
                  match parseArrMore fuel r with
                  | some (vs, r2) => some (.arr (.cons v vs), r2)
                  | none => none
              | none => none)
      | '{' :: rest =>
          (match skipWs rest with
           | '}' :: r => some (.obj .nil, r)
           | '"' :: r =>
              (match parseStrBody r with
               | some (l, r1) =>
                  (match skipWs r1 with
                   | ':' :: r2 =>
                      (match parseValue fuel r2 with
                       | some (v, r3) =>
                          match parseObjMore fuel r3 with
                          | some (fs, r4) =>
                              some (.obj (.cons (String.mk l) v fs), r4)
                          | none => none
                       | none => none)
                   | _ => none)
               | none => none)
           | _ => none)
      | '-' :: rest =>
          (match parseNat rest with
           | some (n, r) => some (.num (-(n : Int)), r)
           | none => none)
      | c :: rest =>
          if isDigitChar c then
            match parseNat (c :: rest) with
            | some (n, r) => some (.num ((n : Int)), r)
            | none => none
          else none
      | [] => none

def parseArrMore : Nat → List Char → Option (JArr × List Char)
  | 0, _ => none
  | fuel + 1, cs =>
      match skipWs cs with
      | ',' :: rest =>
          (match parseValue fuel rest with
           | some (v, r) =>
              match parseArrMore fuel r with
              | some (vs, r2) => some (.cons v vs, r2)
              | none => none
           | none => none)
      | ']' :: rest => some (.nil, rest)
      | _ => none

def parseObjMore : Nat → List Char → Option (JObj × List Char)
  | 0, _ => none
  | fuel + 1, cs =>
      match skipWs cs with
      | ',' :: rest =>
          (match skipWs rest with
           | '"' :: r =>
              (match parseStrBody r with
               | some (l, r1) =>
                  (match skipWs r1 with
                   | ':' :: r2 =>
                      (match parseValue fuel r2 with
                       | some (v, r3) =>
                          match parseObjMore fuel r3 with
                          | some (fs, r4) => some (.cons (String.mk l) v fs, r4)
                          | none => none
                       | none => none)
                   | _ => none)
               | none => none)
           | _ => none)
      | '}' :: rest => some (.nil, rest)
      | _ => none

end

-- `json.load`: one value, then only whitespace up to end of input.
def json_loads (cs : List Char) : Option JValue :=
  match parseValue (cs.length + 1) cs with
  | some (v, rest) => if skipWs rest = [] then some v else none
  | none => none

-- The reader side of `process_file` (lines 73-82): `json.load` followed by
-- the `not data or not isinstance(data, list)` early-return check.
def read_records (cs : List Char) : Option JValue :=
  match json_loads cs with
  | some d => if !pyTruthy d || !isList d then none else some d
  | none => none

/-! ## Round-trip infrastructure: whitespace -/

theorem skipWs_not_ws {c : Char} (rest : List Char) (h : isWsChar c = false) :
    skipWs (c :: rest) = c :: rest := by
  rw [skipWs, if_neg (by simp [h])]

theorem skipWs_cons_ws {c : Char} (rest : List Char) (h : isWsChar c = true) :
    skipWs (c :: rest) = skipWs rest := by
  rw [skipWs, if_pos h]

theorem skipWs_nl (rest : List Char) : skipWs ('\n' :: rest) = skipWs rest :=
  skipWs_cons_ws rest (by decide)

theorem skipWs_replicate_space (n : Nat) (rest : List Char) :
    skipWs (List.replicate n ' ' ++ rest) = skipWs rest := by
  induction n with
  | zero => rfl
  | succ m ih => simp only [List.replicate_succ, List.cons_append,
      skipWs_cons_ws _ (by decide : isWsChar ' ' = true), ih]

theorem skipWs_indent (k : Nat) (rest : List Char) :
    skipWs (indentChars k ++ rest) = skipWs rest :=
  skipWs_replicate_space (2 * k) rest

-- `parseValue` only looks at its input through `skipWs`.
theorem parseValue_congr (f : Nat) (cs cs2 : List Char)
    (h : skipWs cs = skipWs cs2) : parseValue f cs = parseValue f cs2 := by
  cases f with
  | zero => rfl
  | succ f2 => simp only [parseValue]; rw [h]

theorem skipWs_idem (cs : List Char) : skipWs (skipWs cs) = skipWs cs := by
  induction cs with
  | nil => rfl
  | cons c rest ih =>
      cases hc : isWsChar c with
      | true => rw [skipWs_cons_ws rest hc]; exact ih
      | false => rw [skipWs_not_ws rest hc, skipWs_not_ws rest hc]

/-! ## Round-trip infrastructure: digits and numbers -/

-- A remainder that cannot extend a parsed integer.
def headSafe (cs : List Char) : Bool :=
  match cs with
  | c :: _ => !isDigitChar c
  | [] => true

theorem digit_char_facts : ∀ d, d < 10 →
    isDigitChar (Char.ofNat (48 + d)) = true ∧ (Char.ofNat (48 + d)).toNat = 48 + d := by
  decide

theorem natChars_all_digits (n : Nat) :
    ∀ c ∈ natChars n, isDigitChar c = true := by
  induction n using Nat.strong_induction_on with
  | _ n ih =>
      intro c hc
      rw [natChars] at hc
      by_cases h : n < 10
      · rw [if_pos h] at hc
        simp only [List.mem_singleton] at hc
        subst hc
        exact (digit_char_facts n h).1
      · rw [if_neg h] at hc
        have hlt : n / 10 < n := by omega
        rcases List.mem_append.mp hc with hc | hc
        · exact ih (n / 10) hlt c hc
        · simp only [List.mem_singleton] at hc
          subst hc
          exact (digit_char_facts (n % 10) (Nat.mod_lt _ (by omega))).1

theorem natChars_cons (n : Nat) :
    ∃ c t, natChars n = c :: t ∧ isDigitChar c = true := by
  cases h : natChars n with
  | nil =>
      exfalso
      rw [natChars] at h
      by_cases hn : n < 10
      · rw [if_pos hn] at h; cases h
      · rw [if_neg hn] at h
        exact absurd (List.append_eq_nil.mp h).2 (by simp)
  | cons c t =>
      exact ⟨c, t, rfl, natChars_all_digits n c (h ▸ List.mem_cons_self c t)⟩

theorem parseNatAcc_stop (acc : Nat) (rest : List Char) (h : headSafe rest = true) :
    parseNatAcc acc rest = (acc, rest) := by
  cases rest with
  | nil => rfl
  | cons c t =>
      simp only [headSafe, Bool.not_eq_true'] at h
      rw [parseNatAcc, if_neg (by simp [h])]

theorem parseNatAcc_run (ds : List Char) (hds : ∀ c ∈ ds, isDigitChar c = true) :
    ∀ (acc : Nat) (rest : List Char), headSafe rest = true →
      parseNatAcc acc (ds ++ rest) =
        (ds.foldl (fun a c => a * 10 + (c.toNat - 48)) acc, rest) := by
  induction ds with
  | nil => intro acc rest h; exact parseNatAcc_stop acc rest h
  | cons c t ih =>
      intro acc rest h
      have hc : isDigitChar c = true := hds c (List.mem_cons_self c t)
      rw [List.cons_append, parseNatAcc, if_pos hc, List.foldl_cons]
      exact ih (fun x hx => hds x (List.mem_cons_of_mem c hx)) _ rest h

theorem foldl_natChars (n : Nat) : ∀ acc : Nat,
    (natChars n).foldl (fun a c => a * 10 + (c.toNat - 48)) acc =
      acc * 10 ^ (natChars n).length + n := by
  induction n using Nat.strong_induction_on with
  | _ n ih =>
      intro acc
      rw [natChars]
      by_cases h : n < 10
      · rw [if_pos h]
        simp only [List.foldl_cons, List.foldl_nil, List.length_singleton]
        rw [(digit_char_facts n h).2]
        omega
      · rw [if_neg h]
        have hlt : n / 10 < n := by omega
        rw [List.foldl_append, ih (n / 10) hlt acc]
        simp only [List.foldl_cons, List.foldl_nil, List.length_append,
          List.length_singleton]
        rw [(digit_char_facts (n % 10) (Nat.mod_lt _ (by omega))).2]
        have hp : 10 ^ ((natChars (n / 10)).length + 1) =
            10 ^ (natChars (n / 10)).length * 10 := by
          rw [pow_succ]
        have hdm := Nat.div_add_mod n 10
        have hsub : 48 + n % 10 - 48 = n % 10 := by omega
        rw [hp, hsub]
        have h1 : (acc * 10 ^ (natChars (n / 10)).length + n / 10) * 10 + n % 10 =
            acc * (10 ^ (natChars (n / 10)).length * 10) + (10 * (n / 10) + n % 10) := by
          ring
        rw [h1, hdm]

theorem parseNat_natChars (n : Nat) (rest : List Char) (h : headSafe rest = true) :
    parseNat (natChars n ++ rest) = some (n, rest) := by
  obtain ⟨c, t, heq, hc⟩ := natChars_cons n
  have hall := natChars_all_digits n
  rw [heq] at hall
  rw [heq, List.cons_append, parseNat, if_pos hc]
  rw [parseNatAcc_run t (fun x hx => hall x (List.mem_cons_of_mem c hx)) _ rest h]
  have : (c :: t).foldl (fun a x => a * 10 + (x.toNat - 48)) 0 = n := by
    rw [← heq, foldl_natChars]
    omega
  simp only [List.foldl_cons] at this
  have hz : (0 : Nat) * 10 + (c.toNat - 48) = c.toNat - 48 := by omega
  rw [hz] at this
  rw [this]

/-! ## Round-trip infrastructure: strings -/

theorem hexVal_hexDigitChar : ∀ d, d < 16 → hexVal (hexDigitChar d) = some d := by
  decide

-- Parsing one escaped character undoes the escaping.
theorem parseStrBody_escChar (c : Char) (tail : List Char) :
    parseStrBody (escChar c ++ tail) =
      (match parseStrBody tail with
       | some (l, r) => some (c :: l, r)
       | none => none) := by
  by_cases h1 : c = '\\'
  · subst h1; simp [escChar, parseStrBody, unescChar]
  by_cases h2 : c = '"'
  · subst h2; simp [escChar, parseStrBody, unescChar]
  by_cases h3 : c = '\x08'
  · subst h3; simp [escChar, parseStrBody, unescChar]
  by_cases h4 : c = '\x0c'
  · subst h4; simp [escChar, parseStrBody, unescChar]
  by_cases h5 : c = '\n'
  · subst h5; simp [escChar, parseStrBody, unescChar]
  by_cases h6 : c = '\r'
  · subst h6; simp [escChar, parseStrBody, unescChar]
  by_cases h7 : c = '\t'
  · subst h7; simp [escChar, parseStrBody, unescChar]
  rw [escChar, if_neg h1, if_neg h2, if_neg h3, if_neg h4, if_neg h5, if_neg h6,
    if_neg h7]
  by_cases h8 : c.toNat < 32
  · rw [if_pos h8]
    have hd1 : hexVal (hexDigitChar (c.toNat / 16)) = some (c.toNat / 16) :=
      hexVal_hexDigitChar _ (by omega)
    have hd2 : hexVal (hexDigitChar (c.toNat % 16)) = some (c.toNat % 16) :=
      hexVal_hexDigitChar _ (by omega)
    have hn : ((0 * 16 + 0) * 16 + c.toNat / 16) * 16 + c.toNat % 16 = c.toNat := by
      omega
    have h0 : hexVal ('0') = some 0 := by decide
    simp only [List.cons_append, List.nil_append, parseStrBody, h0, hd1, hd2]
    rw [hn, if_pos (by omega : c.toNat < 55296), Char.ofNat_toNat]
    rfl
  · rw [if_neg h8, List.singleton_append, parseStrBody.eq_def]
    split
    · rename_i heq; cases heq
    · rename_i heq
      rw [List.cons.injEq] at heq
      exact absurd heq.1 h2
    · rename_i h1' h2' h3' h4' heq
      rw [List.cons.injEq] at heq
      exact absurd heq.1 h1
    · rename_i heq
      rw [List.cons.injEq] at heq
      exact absurd heq.1 h1
    · rename_i heq
      rw [List.cons.injEq] at heq
      obtain ⟨rfl, rfl⟩ := heq
      rw [if_neg (by omega)]

-- Parsing an escaped run stops exactly at the closing quote.
theorem parseStrBody_escString (l : List Char) : ∀ rest : List Char,
    parseStrBody (escString l ++ ('"' :: rest)) = some (l, rest) := by
  induction l with
  | nil => intro rest; simp [escString, parseStrBody]
  | cons c t ih =>
      intro rest
      rw [escString, List.append_assoc, parseStrBody_escChar, ih rest]

/-! ## Round-trip infrastructure: heads of rendered output -/

theorem digit_not_special (c : Char) (h : isDigitChar c = true) :
    isWsChar c = false ∧ ∀ d : Char, isDigitChar d = false → c ≠ d := by
  constructor
  · cases hq : isWsChar c
    · rfl
    · exfalso
      simp only [isWsChar, Bool.or_eq_true, decide_eq_true_eq] at hq
      rcases hq with ((rfl | rfl) | rfl) | rfl <;> exact absurd h (by decide)
  · intro d hd heq
    subst heq
    rw [h] at hd
    cases hd

-- A character fit to start a rendered value: not whitespace, and none of the
-- closers or the separator the surrounding parser dispatches on.
def headOk (c : Char) : Bool :=
  !isWsChar c && !(c = ']' : Bool) && !(c = '}' : Bool) && !(c = ',' : Bool)

theorem headOk_spec (c : Char) (h : headOk c = true) :
    isWsChar c = false ∧ c ≠ ']' ∧ c ≠ '}' ∧ c ≠ ',' := by
  simp only [headOk, Bool.and_eq_true, Bool.not_eq_true', decide_eq_false_iff_not]
    at h
  exact ⟨h.1.1.1, h.1.1.2, h.1.2, h.2⟩

theorem intChars_cons (i : Int) :
    ∃ c t, intChars i = c :: t ∧ (isDigitChar c = true ∨ c = '-') := by
  rw [intChars]
  by_cases h : i < 0
  · rw [if_pos h]
    exact ⟨'-', _, rfl, Or.inr rfl⟩
  · rw [if_neg h]
    obtain ⟨c, t, heq, hc⟩ := natChars_cons i.toNat
    exact ⟨c, t, heq, Or.inl hc⟩

theorem dumpVal_head (k : Nat) (v : JValue) :
    ∃ c t, dumpVal k v = c :: t ∧ headOk c = true := by
  cases v with
  | null => exact ⟨_, _, rfl, by decide⟩
  | bool b => cases b <;> exact ⟨_, _, rfl, by decide⟩
  | str s => exact ⟨_, _, rfl, by decide⟩
  | num i =>
      obtain ⟨c, t, heq, hc⟩ := intChars_cons i
      refine ⟨c, t, by rw [dumpVal, heq], ?_⟩
      rcases hc with hc | rfl
      · obtain ⟨hws, hne⟩ := digit_not_special c hc
        simp only [headOk, Bool.and_eq_true, Bool.not_eq_true',
          decide_eq_false_iff_not]
        exact ⟨⟨⟨hws, hne _ (by decide)⟩, hne _ (by decide)⟩, hne _ (by decide)⟩
      · decide
  | arr a => cases a <;> exact ⟨_, _, rfl, by decide⟩
  | obj o => cases o <;> exact ⟨_, _, rfl, by decide⟩

/-! ## Round-trip infrastructure: one-step parser dispatch -/

theorem parseValue_digit_head (f : Nat) (c : Char) (t : List Char)
    (h : isDigitChar c = true) :
    parseValue (f + 1) (c :: t) =
      (match parseNat (c :: t) with
       | some (n, r) => some (.num ((n : Int)), r)
       | none => none) := by
  obtain ⟨hws, hne⟩ := digit_not_special c h
  rw [parseValue]
  rw [skipWs_not_ws t hws]
  split
  · rename_i heq; rw [List.cons.injEq] at heq; exact absurd heq.1 (hne _ (by decide))
  · rename_i heq; rw [List.cons.injEq] at heq; exact absurd heq.1 (hne _ (by decide))
  · rename_i heq; rw [List.cons.injEq] at heq; exact absurd heq.1 (hne _ (by decide))
  · rename_i heq; rw [List.cons.injEq] at heq; exact absurd heq.1 (hne _ (by decide))
  · rename_i heq; rw [List.cons.injEq] at heq; exact absurd heq.1 (hne _ (by decide))
  · rename_i heq; rw [List.cons.injEq] at heq; exact absurd heq.1 (hne _ (by decide))
  · rename_i heq; rw [List.cons.injEq] at heq; exact absurd heq.1 (hne _ (by decide))
  · rename_i heq
    rw [List.cons.injEq] at heq
    obtain ⟨rfl, rfl⟩ := heq
    rw [if_pos h]
  · rename_i heq; cases heq

theorem parseValue_arr_branch (f : Nat) (rest1 : List Char) (c : Char)
    (t : List Char) (hsk : skipWs rest1 = c :: t) (hne : c ≠ ']') :
    parseValue (f + 1) ('[' :: rest1) =
      (match parseValue f (c :: t) with
       | some (v, r) =>
          match parseArrMore f r with
          | some (vs, r2) => some (.arr (.cons v vs), r2)
          | none => none
       | none => none) := by
  have step : parseValue (f + 1) ('[' :: rest1) =
      (match skipWs rest1 with
       | ']' :: r => some (.arr .nil, r)
       | cs2 =>
          match parseValue f cs2 with
          | some (v, r) =>
              match parseArrMore f r with
              | some (vs, r2) => some (.arr (.cons v vs), r2)
              | none => none
          | none => none) := rfl
  rw [step, hsk]
  split
  · rename_i heq; rw [List.cons.injEq] at heq; exact absurd heq.1 hne
  · rfl

theorem parseValue_obj_branch (f : Nat) (rest1 : List Char) (r : List Char)
    (hsk : skipWs rest1 = '"' :: r) :
    parseValue (f + 1) ('{' :: rest1) =
      (match parseStrBody r with
       | some (l, r1) =>
          (match skipWs r1 with
           | ':' :: r2 =>
              (match parseValue f r2 with
               | some (v, r3) =>
                  match parseObjMore f r3 with
                  | some (fs, r4) => some (.obj (.cons (String.mk l) v fs), r4)
                  | none => none
               | none => none)
           | _ => none)
       | none => none) := by
  have step : parseValue (f + 1) ('{' :: rest1) =
      (match skipWs rest1 with
       | '}' :: r => some (.obj .nil, r)
       | '"' :: r =>
          (match parseStrBody r with
           | some (l, r1) =>
              (match skipWs r1 with
               | ':' :: r2 =>
                  (match parseValue f r2 with
                   | some (v, r3) =>
                      match parseObjMore f r3 with
                      | some (fs, r4) =>
                          some (.obj (.cons (String.mk l) v fs), r4)
                      | none => none
                   | none => none)
               | _ => none)
           | none => none)
       | _ => none) := rfl
  rw [step, hsk]
  rfl

theorem parseArrMore_comma (f : Nat) (cs rest : List Char)
    (hsk : skipWs cs = ',' :: rest) :
    parseArrMore (f + 1) cs =
      (match parseValue f rest with
       | some (v, r) =>
          match parseArrMore f r with
          | some (vs, r2) => some (.cons v vs, r2)
          | none => none
       | none => none) := by
  rw [parseArrMore, hsk]
  rfl

theorem parseArrMore_close (f : Nat) (cs rest : List Char)
    (hsk : skipWs cs = ']' :: rest) :
    parseArrMore (f + 1) cs = some (.nil, rest) := by
  rw [parseArrMore, hsk]
  rfl

theorem parseObjMore_comma (f : Nat) (cs rest r : List Char)
    (hsk : skipWs cs = ',' :: rest) (hsk2 : skipWs rest = '"' :: r) :
    parseObjMore (f + 1) cs =
      (match parseStrBody r with
       | some (l, r1) =>
          (match skipWs r1 with
           | ':' :: r2 =>
              (match parseValue f r2 with
               | some (v, r3) =>
                  match parseObjMore f r3 with
                  | some (fs, r4) => some (.cons (String.mk l) v fs, r4)
                  | none => none
               | none => none)
           | _ => none)
       | none => none) := by
  rw [parseObjMore, hsk]
  show (match skipWs rest with
        | '"' :: r0 =>
           (match parseStrBody r0 with
            | some (l, r1) =>
               (match skipWs r1 with
                | ':' :: r2 =>
                   (match parseValue f r2 with
                    | some (v, r3) =>
                       match parseObjMore f r3 with
                       | some (fs, r4) => some (JObj.cons (String.mk l) v fs, r4)
                       | none => none
                    | none => none)
                | _ => none)
            | none => none)
        | _ => none) = _
  rw [hsk2]
  rfl

theorem parseObjMore_close (f : Nat) (cs rest : List Char)
    (hsk : skipWs cs = '}' :: rest) :
    parseObjMore (f + 1) cs = some (.nil, rest) := by
  rw [parseObjMore, hsk]
  rfl

-- Object-member dispatch with the rendered key inlined.
theorem parseValue_obj_key (f : Nat) (rest1 l tail : List Char)
    (hsk : skipWs rest1 = '"' :: (escString l ++ ('"' :: (':' :: tail)))) :
    parseValue (f + 1) ('{' :: rest1) =
      (match parseValue f tail with
       | some (v, r3) =>
          match parseObjMore f r3 with
          | some (fs, r4) => some (.obj (.cons (String.mk l) v fs), r4)
          | none => none
       | none => none) := by
  rw [parseValue_obj_branch f rest1 _ hsk, parseStrBody_escString l (':' :: tail)]
  dsimp only
  rw [skipWs_not_ws tail (by decide)]
  rfl

theorem parseObjMore_key (f : Nat) (cs rest l tail : List Char)
    (hsk : skipWs cs = ',' :: rest)
    (hsk2 : skipWs rest = '"' :: (escString l ++ ('"' :: (':' :: tail)))) :
    parseObjMore (f + 1) cs =
      (match parseValue f tail with
       | some (v, r3) =>
          match parseObjMore f r3 with
          | some (fs, r4) => some (.cons (String.mk l) v fs, r4)
          | none => none
       | none => none) := by
  rw [parseObjMore_comma f cs rest _ hsk hsk2, parseStrBody_escString l (':' :: tail)]
  dsimp only
  rw [skipWs_not_ws tail (by decide)]
  rfl

/-! ## Round-trip infrastructure: sizes -/

mutual

def sizeV : JValue → Nat
  | .arr a => sizeA a + 1
  | .obj o => sizeO o + 1
  | _ => 1

def sizeA : JArr → Nat
  | .nil => 1
  | .cons v vs => sizeV v + sizeA vs + 1

def sizeO : JObj → Nat
  | .nil => 1
  | .cons _ v fs => sizeV v + sizeO fs + 1

end

theorem sizeV_pos (v : JValue) : 1 ≤ sizeV v := by
  cases v <;> simp [sizeV]

theorem sizeA_pos (a : JArr) : 1 ≤ sizeA a := by
  cases a <;> simp [sizeA]

theorem sizeO_pos (o : JObj) : 1 ≤ sizeO o := by
  cases o <;> simp [sizeO]

-- Heads of item tails inside rendered containers can never extend a number.
theorem headSafe_arrTail (k : Nat) (vs : JArr) (l : List Char) :
    headSafe (dumpArrMore k vs ++ ('\n' :: l)) = true := by
  cases vs with
  | nil => rw [dumpArrMore, List.nil_append]; rfl
  | cons v vs2 => rw [dumpArrMore, List.cons_append]; rfl

theorem headSafe_objTail (k : Nat) (fs : JObj) (l : List Char) :
    headSafe (dumpObjMore k fs ++ ('\n' :: l)) = true := by
  cases fs with
  | nil => rw [dumpObjMore, List.nil_append]; rfl
  | cons key v fs2 => rw [dumpObjMore, List.cons_append]; rfl

/-! ## The round trip: parsing rendered output recovers the value -/

mutual

theorem parseValue_dumpVal : ∀ (v : JValue) (fuel k : Nat) (rest : List Char),
    sizeV v < fuel → headSafe rest = true →
    parseValue fuel (dumpVal k v ++ rest) = some (v, rest)
  | _, 0, _, _, hf, _ => absurd hf (by omega)
  | .null, fuel + 1, k, rest, _, _ => by
      simp [dumpVal, nullChars, trueChars, falseChars, parseValue, skipWs, isWsChar]
  | .bool true, fuel + 1, k, rest, _, _ => by
      simp [dumpVal, nullChars, trueChars, falseChars, parseValue, skipWs, isWsChar]
  | .bool false, fuel + 1, k, rest, _, _ => by
      simp [dumpVal, nullChars, trueChars, falseChars, parseValue, skipWs, isWsChar]
  | .str s, fuel + 1, k, rest, _, _ => by
      have harg : dumpVal k (.str s) ++ rest =
          '"' :: (escString s.data ++ ('"' :: rest)) := by
        rw [dumpVal, dumpStr]
        simp
      rw [harg]
      simp [parseValue, skipWs, isWsChar, parseStrBody_escString s.data rest]
  | .num i, fuel + 1, k, rest, hf, hr => by
      rw [dumpVal, intChars]
      by_cases h : i < 0
      · rw [if_pos h, List.cons_append]
        have step : parseValue (fuel + 1) ('-' :: (natChars i.natAbs ++ rest)) =
            (match parseNat (natChars i.natAbs ++ rest) with
             | some (n, r) => some (.num (-(n : Int)), r)
             | none => none) := rfl
        rw [step, parseNat_natChars _ rest hr]
        dsimp only
        have hnn : -((i.natAbs : Int)) = i := by omega
        rw [hnn]
      · rw [if_neg h]
        obtain ⟨c, t, heq, hc⟩ := natChars_cons i.toNat
        rw [heq, List.cons_append, parseValue_digit_head fuel c _ hc,
          ← List.cons_append, ← heq, parseNat_natChars _ rest hr]
        dsimp only
        have hnn : ((i.toNat : Int)) = i := by omega
        rw [hnn]
  | .arr .nil, fuel + 1, k, rest, _, _ => by
      simp [dumpVal, nullChars, trueChars, falseChars, parseValue, skipWs, isWsChar]
  | .arr (.cons v vs), fuel + 1, k, rest, hf, hr => by
      obtain ⟨c, t, hd, hok⟩ := dumpVal_head (k + 1) v
      obtain ⟨hws, hbr, hbc, hcm⟩ := headOk_spec c hok
      have hf1 : sizeV v < fuel := by
        rw [sizeV, sizeA] at hf
        have := sizeA_pos vs
        omega
      have hf2 : sizeA vs < fuel := by
        rw [sizeV, sizeA] at hf
        have := sizeV_pos v
        omega
      have harr : dumpVal k (.arr (.cons v vs)) ++ rest =
          '[' :: ('\n' :: (indentChars (k + 1) ++ (dumpVal (k + 1) v ++
            (dumpArrMore (k + 1) vs ++
              ('\n' :: (indentChars k ++ (']' :: rest))))))) := by
        rw [dumpVal]
        simp
      have hsk : skipWs ('\n' :: (indentChars (k + 1) ++ (dumpVal (k + 1) v ++
            (dumpArrMore (k + 1) vs ++
              ('\n' :: (indentChars k ++ (']' :: rest))))))) =
          c :: (t ++ (dumpArrMore (k + 1) vs ++
            ('\n' :: (indentChars k ++ (']' :: rest))))) := by
        rw [skipWs_nl, skipWs_indent, hd, List.cons_append, skipWs_not_ws _ hws]
      rw [harr, parseValue_arr_branch fuel _ c _ hsk hbr]
      have hv := parseValue_dumpVal v fuel (k + 1)
        (dumpArrMore (k + 1) vs ++ ('\n' :: (indentChars k ++ (']' :: rest))))
        hf1 (headSafe_arrTail (k + 1) vs _)
      rw [hd, List.cons_append] at hv
      rw [hv]
      dsimp only
      rw [parseArrMore_dumpArrMore vs fuel (k + 1) k rest hf2]
  | .obj .nil, fuel + 1, k, rest, _, _ => by
      simp [dumpVal, nullChars, trueChars, falseChars, parseValue, skipWs, isWsChar]
  | .obj (.cons key v fs), fuel + 1, k, rest, hf, hr => by
      have hf1 : sizeV v < fuel := by
        rw [sizeV, sizeO] at hf
        have := sizeO_pos fs
        omega
      have hf2 : sizeO fs < fuel := by
        rw [sizeV, sizeO] at hf
        have := sizeV_pos v
        omega
      have hobj : dumpVal k (.obj (.cons key v fs)) ++ rest =
          '{' :: ('\n' :: (indentChars (k + 1) ++ ('"' :: (escString key.data ++
            ('"' :: (':' :: (' ' :: (dumpVal (k + 1) v ++
              (dumpObjMore (k + 1) fs ++
                ('\n' :: (indentChars k ++ ('}' :: rest)))))))))))) := by
        rw [dumpVal, dumpStr]
        simp
      have hsk : skipWs ('\n' :: (indentChars (k + 1) ++ ('"' :: (escString key.data ++
            ('"' :: (':' :: (' ' :: (dumpVal (k + 1) v ++
              (dumpObjMore (k + 1) fs ++
                ('\n' :: (indentChars k ++ ('}' :: rest)))))))))))) =
          '"' :: (escString key.data ++
            ('"' :: (':' :: (' ' :: (dumpVal (k + 1) v ++
              (dumpObjMore (k + 1) fs ++
                ('\n' :: (indentChars k ++ ('}' :: rest))))))))) := by
        rw [skipWs_nl, skipWs_indent, skipWs_not_ws _ (by decide)]
      rw [hobj, parseValue_obj_key fuel _ key.data _ hsk]
      have hcg : parseValue fuel (' ' :: (dumpVal (k + 1) v ++
            (dumpObjMore (k + 1) fs ++
              ('\n' :: (indentChars k ++ ('}' :: rest)))))) =
          parseValue fuel (dumpVal (k + 1) v ++
            (dumpObjMore (k + 1) fs ++
              ('\n' :: (indentChars k ++ ('}' :: rest))))) :=
        parseValue_congr fuel _ _ (by rw [skipWs_cons_ws _ (by decide)])
      rw [hcg, parseValue_dumpVal v fuel (k + 1) _ hf1 (headSafe_objTail (k + 1) fs _)]
      dsimp only
      rw [parseObjMore_dumpObjMore fs fuel (k + 1) k rest hf2]

theorem parseArrMore_dumpArrMore :
    ∀ (vs : JArr) (fuel k k2 : Nat) (rest : List Char),
    sizeA vs < fuel →
    parseArrMore fuel (dumpArrMore k vs ++
      ('\n' :: (indentChars k2 ++ (']' :: rest)))) = some (vs, rest)
  | _, 0, _, _, _, hf => absurd hf (by omega)
  | .nil, fuel + 1, k, k2, rest, _ => by
      rw [dumpArrMore, List.nil_append]
      exact parseArrMore_close fuel _ rest
        (by rw [skipWs_nl, skipWs_indent, skipWs_not_ws _ (by decide)])
  | .cons v vs, fuel + 1, k, k2, rest, hf => by
      have hf1 : sizeV v < fuel := by
        rw [sizeA] at hf
        have := sizeA_pos vs
        omega
      have hf2 : sizeA vs < fuel := by
        rw [sizeA] at hf
        have := sizeV_pos v
        omega
      have harr : dumpArrMore k (.cons v vs) ++
            ('\n' :: (indentChars k2 ++ (']' :: rest))) =
          ',' :: ('\n' :: (indentChars k ++ (dumpVal k v ++
            (dumpArrMore k vs ++
              ('\n' :: (indentChars k2 ++ (']' :: rest))))))) := by
        rw [dumpArrMore]
        simp
      rw [harr, parseArrMore_comma fuel _ _ (skipWs_not_ws _ (by decide))]
      have hcg : parseValue fuel ('\n' :: (indentChars k ++ (dumpVal k v ++
            (dumpArrMore k vs ++
              ('\n' :: (indentChars k2 ++ (']' :: rest))))))) =
          parseValue fuel (dumpVal k v ++
            (dumpArrMore k vs ++ ('\n' :: (indentChars k2 ++ (']' :: rest))))) :=
        parseValue_congr fuel _ _ (by rw [skipWs_nl, skipWs_indent])
      rw [hcg, parseValue_dumpVal v fuel k _ hf1 (headSafe_arrTail k vs _)]
      dsimp only
      rw [parseArrMore_dumpArrMore vs fuel k k2 rest hf2]

theorem parseObjMore_dumpObjMore :
    ∀ (fs : JObj) (fuel k k2 : Nat) (rest : List Char),
    sizeO fs < fuel →
    parseObjMore fuel (dumpObjMore k fs ++
      ('\n' :: (indentChars k2 ++ ('}' :: rest)))) = some (fs, rest)
  | _, 0, _, _, _, hf => absurd hf (by omega)
  | .nil, fuel + 1, k, k2, rest, _ => by
      rw [dumpObjMore, List.nil_append]
      exact parseObjMore_close fuel _ rest
        (by rw [skipWs_nl, skipWs_indent, skipWs_not_ws _ (by decide)])
  | .cons key v fs, fuel + 1, k, k2, rest, hf => by
      have hf1 : sizeV v < fuel := by
        rw [sizeO] at hf
        have := sizeO_pos fs
        omega
      have hf2 : sizeO fs < fuel := by
        rw [sizeO] at hf
        have := sizeV_pos v
        omega
      have hobj : dumpObjMore k (.cons key v fs) ++
            ('\n' :: (indentChars k2 ++ ('}' :: rest))) =
          ',' :: ('\n' :: (indentChars k ++ ('"' :: (escString key.data ++
            ('"' :: (':' :: (' ' :: (dumpVal k v ++
              (dumpObjMore k fs ++
                ('\n' :: (indentChars k2 ++ ('}' :: rest)))))))))))) := by
        rw [dumpObjMore, dumpStr]
        simp
      rw [hobj, parseObjMore_key fuel _ _ key.data _
        (skipWs_not_ws _ (by decide))
        (by rw [skipWs_nl, skipWs_indent, skipWs_not_ws _ (by decide)])]
      have hcg : parseValue fuel (' ' :: (dumpVal k v ++
            (dumpObjMore k fs ++
              ('\n' :: (indentChars k2 ++ ('}' :: rest)))))) =
          parseValue fuel (dumpVal k v ++
            (dumpObjMore k fs ++ ('\n' :: (indentChars k2 ++ ('}' :: rest))))) :=
        parseValue_congr fuel _ _ (by rw [skipWs_cons_ws _ (by decide)])
      rw [hcg, parseValue_dumpVal v fuel k _ hf1 (headSafe_objTail k fs _)]
      dsimp only
      rw [parseObjMore_dumpObjMore fs fuel k k2 rest hf2]

end

-- The reader's default fuel (input length + 1) is always enough for the
-- writer's output: a value's size never exceeds its rendering's length.
mutual

theorem sizeV_le_dumpLen : ∀ (k : Nat) (v : JValue),
    sizeV v ≤ (dumpVal k v).length
  | _, .null => by simp [dumpVal, nullChars, sizeV]
  | _, .bool true => by simp [dumpVal, trueChars, sizeV]
  | _, .bool false => by simp [dumpVal, falseChars, sizeV]
  | k, .num i => by
      obtain ⟨c, t, heq, _⟩ := intChars_cons i
      simp [dumpVal, sizeV, heq]
  | _, .str s => by simp [dumpVal, dumpStr, sizeV]
  | _, .arr .nil => by simp [dumpVal, sizeV, sizeA]
  | k, .arr (.cons v vs) => by
      have h1 := sizeV_le_dumpLen (k + 1) v
      have h2 := sizeA_le_dumpLen (k + 1) vs
      simp only [dumpVal, sizeV, sizeA, List.length_cons, List.length_append,
        List.length_singleton]
      omega
  | _, .obj .nil => by simp [dumpVal, sizeV, sizeO]
  | k, .obj (.cons key v fs) => by
      have h1 := sizeV_le_dumpLen (k + 1) v
      have h2 := sizeO_le_dumpLen (k + 1) fs
      simp only [dumpVal, dumpStr, sizeV, sizeO, List.length_cons,
        List.length_append, List.length_singleton]
      omega

theorem sizeA_le_dumpLen : ∀ (k : Nat) (vs : JArr),
    sizeA vs ≤ (dumpArrMore k vs).length + 2
  | _, .nil => by simp [dumpArrMore, sizeA]
  | k, .cons v vs => by
      have h1 := sizeV_le_dumpLen k v
      have h2 := sizeA_le_dumpLen k vs
      simp only [dumpArrMore, sizeA, List.length_cons, List.length_append]
      omega

theorem sizeO_le_dumpLen : ∀ (k : Nat) (fs : JObj),
    sizeO fs ≤ (dumpObjMore k fs).length + 2
  | _, .nil => by simp [dumpObjMore, sizeO]
  | k, .cons key v fs => by
      have h1 := sizeV_le_dumpLen k v
      have h2 := sizeO_le_dumpLen k fs
      simp only [dumpObjMore, dumpStr, sizeO, List.length_cons,
        List.length_append, List.length_singleton]
      omega

end

-- Loading rendered output recovers the value exactly.
theorem json_loads_dumps (v : JValue) : json_loads (json_dumps v) = some v := by
  rw [json_dumps, json_loads]
  have h := parseValue_dumpVal v ((dumpVal 0 v).length + 1) 0 []
    (by have := sizeV_le_dumpLen 0 v; omega) rfl
  rw [List.append_nil] at h
  rw [h]
  rfl

/-! ## C9 -/

/-- C9: serializing a non-empty record collection with the writer
(json.dump with indent 2, ensure_ascii=False) and loading the result with the
reader (json.load plus the non-empty-list check) reproduces the collection
exactly, field for field. -/
theorem c9_roundtrip (xs : JArr) (h : xs.isNil = false) :
    read_records (json_dumps (.arr xs)) = some (.arr xs) := by
  rw [read_records, json_loads_dumps]
  cases xs with
  | nil => simp [JArr.isNil] at h
  | cons v vs => simp [pyTruthy, isList, JArr.isNil]

/-- C9 witness: the round trip at a concrete one-record collection. -/
theorem c9_witness :
    entSolar.isNil = false ∧
    read_records (json_dumps (.arr entSolar)) = some (.arr entSolar) :=
  ⟨rfl, c9_roundtrip entSolar rfl⟩

end ExtractProfileLocation
